import Mathlib

/-!
Verification development for the Monte Carlo blood-demand simulator
(`app.montecarlo.py`).

The Python code is shallowly embedded as follows.

* Python strings are `String` / `List Char`; `clean_interval_string` and
  `parse_interval` are translated character by character.  Python's
  `str.replace` calls in `clean_interval_string` replace single characters
  by single characters (or delete them), and the replacement character `-`
  is never itself replaced or deleted afterwards, so the sequential
  replaces are equivalent to one character-wise pass (`cleanChars`).
* Python's `int(str)` conversion is modelled by `pyInt`: strip ASCII
  whitespace at both ends, an optional single sign, then a nonempty digit
  string in which single underscores may appear between digits.  (The
  source also accepts non-ASCII Unicode digits; no claim exercises those.)
* Python's `str.split('-')` is `splitOnDash`, keeping empty pieces exactly
  as Python does.
* The dataframe rows carry many columns, but the simulation logic reads
  only the class-interval label (`'Interval Kelas '`) and the cumulative
  percentage (`'Prob Kumulatif * 100'`); a `ClassRow` records these two.
  The float percentages are modelled as exact rationals, and Python's
  `round` (round half to even, "banker's rounding") is `rnd`.
* `random.randint(0, 99)` draws are modelled by an injected draw sequence
  `rng : ℕ → ℤ`; period `i` (0-based) consumes draws `4*i, …, 4*i+3` in
  the source's textual order A, B, AB, O.  Streamlit progress calls are
  display-only side effects and are omitted.
-/

namespace MonteCarlo

/-- Characters that Python's `int` strips from both ends of its argument
(ASCII whitespace). -/
def isPySpace (c : Char) : Bool :=
  c = ' ' || c = '\t' || c = '\n' || c = '\r' || c = '\x0b' || c = '\x0c'

/-- Character-wise body of `clean_interval_string`: the corrupted dash
`â` and the Unicode dashes `–`/`—` become `-`; spaces and commas are
deleted; all other characters are kept. -/
def cleanChars : List Char → List Char
  | [] => []
  | c :: rest =>
    if c = 'â' ∨ c = '–' ∨ c = '—' then '-' :: cleanChars rest
    else if c = ' ' ∨ c = ',' then cleanChars rest
    else c :: cleanChars rest

/-- Source `clean_interval_string`: normalises dash-like characters to a
plain hyphen and removes spaces and commas. -/
def clean_interval_string (s : String) : String :=
  ⟨cleanChars s.data⟩

/-- Python `s.split('-')`: split at every hyphen, keeping empty pieces. -/
def splitOnDash : List Char → List (List Char)
  | [] => [[]]
  | c :: rest =>
    if c = '-' then [] :: splitOnDash rest
    else
      match splitOnDash rest with
      | t :: ts => (c :: t) :: ts
      | [] => [[c]]

/-- Strip ASCII whitespace from both ends, as Python `int` does before
parsing. -/
def stripPy (l : List Char) : List Char :=
  ((l.dropWhile isPySpace).reverse.dropWhile isPySpace).reverse

/-- After an initial digit, Python's integer literal grammar allows
digits with single underscores between digits. -/
def digitsTail : List Char → Bool
  | [] => true
  | c :: rest =>
    if c = '_' then
      match rest with
      | d :: rest2 => d.isDigit && digitsTail rest2
      | [] => false
    else c.isDigit && digitsTail rest

/-- An unsigned Python integer literal: a digit followed by digits with
single underscores between digits. -/
def uintOk : List Char → Bool
  | [] => false
  | c :: rest => c.isDigit && digitsTail rest

/-- Numeric value of a list of decimal digit characters, most significant
first. -/
def parseDigits (l : List Char) : ℕ :=
  l.foldl (fun a c => 10 * a + (c.toNat - 48)) 0

/-- Python `int(str)`: strip whitespace, allow one optional sign, then
require an unsigned integer literal; `none` models a `ValueError`. -/
def pyInt (l : List Char) : Option ℤ :=
  match stripPy l with
  | '+' :: rest => if uintOk rest then some (parseDigits (rest.filter Char.isDigit)) else none
  | '-' :: rest => if uintOk rest then some (-(parseDigits (rest.filter Char.isDigit) : ℤ)) else none
  | rest => if uintOk rest then some (parseDigits (rest.filter Char.isDigit)) else none

/-- Source `parse_interval`: split on `-` and convert both pieces with
`int`; any `ValueError` — wrong number of pieces when unpacking
`a, b = map(int, …)`, or a piece that is not an integer literal — yields
`(None, None)`, modelled as `none`. -/
def parse_interval (s : String) : Option (ℤ × ℤ) :=
  match splitOnDash s.data with
  | [a, b] =>
    match pyInt a, pyInt b with
    | some x, some y => some (x, y)
    | _, _ => none
  | _ => none

/-- Python `round` on the exact value: round half to even. -/
def rnd (q : ℚ) : ℤ :=
  if q - ⌊q⌋ < 1/2 then ⌊q⌋
  else if 1/2 < q - ⌊q⌋ then ⌊q⌋ + 1
  else if ⌊q⌋ % 2 = 0 then ⌊q⌋ else ⌊q⌋ + 1

lemma rnd_le (q : ℚ) : (rnd q : ℚ) ≤ q + 1/2 := by
  have h1 : (⌊q⌋ : ℚ) ≤ q := Int.floor_le q
  have h2 : q < ⌊q⌋ + 1 := Int.lt_floor_add_one q
  unfold rnd
  split
  · linarith
  · split
    · push_cast; linarith
    · split
      · linarith
      · push_cast
        have h3 : ¬(q - ⌊q⌋ < 1/2) := by assumption
        have h4 : ¬(1/2 < q - ⌊q⌋) := by assumption
        have : q - ⌊q⌋ = 1/2 := le_antisymm (not_lt.mp h4) (not_lt.mp h3)
        linarith

lemma rnd_ge (q : ℚ) : q - 1/2 ≤ (rnd q : ℚ) := by
  have h1 : (⌊q⌋ : ℚ) ≤ q := Int.floor_le q
  have h2 : q < ⌊q⌋ + 1 := Int.lt_floor_add_one q
  unfold rnd
  split
  · linarith
  · split
    · push_cast; linarith
    · split
      · have h3 : ¬(q - ⌊q⌋ < 1/2) := by assumption
        linarith [not_lt.mp h3]
      · push_cast; linarith

lemma rnd_mono {p q : ℚ} (h : p ≤ q) : rnd p ≤ rnd q := by
  by_contra hc
  push_neg at hc
  have h1 : (rnd q : ℚ) + 1 ≤ (rnd p : ℚ) := by
    exact_mod_cast Int.add_one_le_iff.mpr hc
  have h2 := rnd_le p
  have h3 := rnd_ge q
  have hpq : p = q := by linarith
  subst hpq
  exact absurd hc (lt_irrefl _)

lemma rnd_nonneg {q : ℚ} (h : 0 ≤ q) : 0 ≤ rnd q := by
  have h1 := rnd_ge q
  have h2 : (-1 : ℚ) < (rnd q : ℚ) := by linarith
  have h3 : (-1 : ℤ) < rnd q := by exact_mod_cast h2
  omega

lemma rnd_intCast (n : ℤ) : rnd (n : ℚ) = n := by
  unfold rnd
  rw [Int.floor_intCast]
  simp

/-- One row of a distribution dataframe as the simulation logic reads it:
the class-interval label (column `'Interval Kelas '`) and the cumulative
percentage (column `'Prob Kumulatif * 100'`).  The remaining columns
(`'No'`, `'Frekuensi'`, `'Probabilitas'`, `'Prob Kumulatif '`) are only
displayed and never enter the sampling or range computations. -/
structure ClassRow where
  interval : String
  cumPct : ℚ

/-- Representative value of a row: `math.ceil((a + b) / 2)` of the parsed
interval, and the documented sentinel `0` when parsing fails (the source
returns `0` from `get_simulation_value` in that case; the display layer
shows a blank midpoint). -/
def repOfRow (row : ClassRow) : ℤ :=
  match parse_interval (clean_interval_string row.interval) with
  | some (a, b) => ⌈((a : ℚ) + b) / 2⌉
  | none => 0

/-- Random-range construction of `display_distribution_table` (and
re-derived identically inside `get_simulation_value`): the first range
starts at `0`, each range's upper bound is `int(round(cum_pct))`, and the
next range starts one above the previous upper bound. -/
def buildRangesAux : List ClassRow → ℤ → List (ℤ × ℤ)
  | [], _ => []
  | row :: rest, lower =>
    (lower, rnd row.cumPct) :: buildRangesAux rest (rnd row.cumPct + 1)

/-- Random ranges of a distribution table, in row order. -/
def buildRanges (df : List ClassRow) : List (ℤ × ℤ) :=
  buildRangesAux df 0

/-- One entry of the spec's `DistributionTable`: representative value and
random range. -/
structure DistributionEntry where
  representative : ℤ
  rangeLow : ℤ
  rangeHigh : ℤ
deriving DecidableEq

/-- Distribution-table builder: pairs every row's representative value
with its random range, in row order. -/
def buildTableAux : List ClassRow → ℤ → List DistributionEntry
  | [], _ => []
  | row :: rest, lower =>
    ⟨repOfRow row, lower, rnd row.cumPct⟩ :: buildTableAux rest (rnd row.cumPct + 1)

/-- Distribution table of a dataframe: entries in row order, first range
starting at `0`. -/
def buildTable (df : List ClassRow) : List DistributionEntry :=
  buildTableAux df 0

/-- Modelled from the spec's sampler contract (§4.3), for comparison with
the source's `get_simulation_value`: linear scan of the table entries in
stored order, returning the representative value of the first entry whose
random range contains the draw, and `0` when no entry matches. -/
def sampleSpec (table : List DistributionEntry) (d : ℤ) : ℤ :=
  match table.find? (fun e => decide (e.rangeLow ≤ d ∧ d ≤ e.rangeHigh)) with
  | some e => e.representative
  | none => 0

/-- Loop body of the source's `get_simulation_value`, with the running
`lower_bound` as an explicit accumulator. -/
def get_simulation_valueAux : List ClassRow → ℤ → ℤ → ℤ
  | [], _, _ => 0
  | row :: rest, lower, r =>
    if lower ≤ r ∧ r ≤ rnd row.cumPct then repOfRow row
    else get_simulation_valueAux rest (rnd row.cumPct + 1) r

/-- Source `get_simulation_value`: scan the rows with `lower_bound`
starting at `0`; on the first row whose recomputed random range contains
the draw, return the interval midpoint (or `0` if the interval does not
parse); return `0` when no row matches. -/
def get_simulation_value (df : List ClassRow) (r : ℤ) : ℤ :=
  get_simulation_valueAux df 0 r

/-- The four per-category distribution dataframes; `none` models a
missing Excel file, for which the source substitutes an empty dataframe
via `_distribusi_dict.get(gol, pd.DataFrame())`. -/
structure DistDict where
  A : Option (List ClassRow)
  B : Option (List ClassRow)
  AB : Option (List ClassRow)
  O : Option (List ClassRow)

/-- Dictionary lookup with the empty-dataframe default. -/
def getTable (t : Option (List ClassRow)) : List ClassRow :=
  t.getD []

/-- One row of the simulation result dataframe, with the source's column
names: period, the four draws, the four sampled values, their total, and
the four percentage shares. -/
structure SimulationRecord where
  periode : ℤ
  angkaAcakA : ℤ
  angkaAcakB : ℤ
  angkaAcakAB : ℤ
  angkaAcakO : ℤ
  simA : ℤ
  simB : ℤ
  simAB : ℤ
  simO : ℤ
  totalSim : ℤ
  pmkA : ℚ
  pmkB : ℚ
  pmkAB : ℚ
  pmkO : ℚ

/-- Body of one iteration of the simulation loop: sample each category's
table at its draw, total the results, and compute the percentage shares
(`0` when the total is zero, matching `… if total_sim else 0`). -/
def simulateOnePeriod (d : DistDict) (i : ℕ) (ra rb rab ro : ℤ) : SimulationRecord :=
  let simA := get_simulation_value (getTable d.A) ra
  let simB := get_simulation_value (getTable d.B) rb
  let simAB := get_simulation_value (getTable d.AB) rab
  let simO := get_simulation_value (getTable d.O) ro
  let total := simA + simB + simAB + simO
  { periode := (i : ℤ) + 1
    angkaAcakA := ra, angkaAcakB := rb, angkaAcakAB := rab, angkaAcakO := ro
    simA := simA, simB := simB, simAB := simAB, simO := simO
    totalSim := total
    pmkA := if total ≠ 0 then (simA : ℚ) / (total : ℚ) * 100 else 0
    pmkB := if total ≠ 0 then (simB : ℚ) / (total : ℚ) * 100 else 0
    pmkAB := if total ≠ 0 then (simAB : ℚ) / (total : ℚ) * 100 else 0
    pmkO := if total ≠ 0 then (simO : ℚ) / (total : ℚ) * 100 else 0 }

/-- Source `run_monte_carlo_simulation`: one record per period, in period
order; period `i` (0-based) consumes the injected draw sequence at
indices `4*i, 4*i+1, 4*i+2, 4*i+3` — the order in which the source calls
`random.randint(0, 99)` for A, B, AB, O. -/
def run_monte_carlo_simulation (d : DistDict) (n : ℕ) (rng : ℕ → ℤ) : List SimulationRecord :=
  (List.range n).map (fun i =>
    simulateOnePeriod d i (rng (4 * i)) (rng (4 * i + 1)) (rng (4 * i + 2)) (rng (4 * i + 3)))

/-- Characters deleted by `clean_interval_string` (formatting noise:
spaces and thousands-separator commas). -/
def isNoise (c : Char) : Bool := c = ' ' || c = ','

lemma splitOnDash_ne_nil (l : List Char) : splitOnDash l ≠ [] := by
  induction l with
  | nil => simp [splitOnDash]
  | cons c rest ih =>
    rw [splitOnDash]
    split
    · simp
    · rcases h : splitOnDash rest with _ | ⟨t, ts⟩ <;> simp [h]

lemma mem_splitOnDash : ∀ (l : List Char), ∀ t ∈ splitOnDash l, '-' ∉ t := by
  intro l
  induction l with
  | nil =>
    intro t ht
    simp [splitOnDash] at ht
    simp [ht]
  | cons c rest ih =>
    intro t ht
    rw [splitOnDash] at ht
    by_cases hc : c = '-'
    · rw [if_pos hc] at ht
      rcases List.mem_cons.mp ht with h1 | h1
      · simp [h1]
      · exact ih t h1
    · rw [if_neg hc] at ht
      rcases h : splitOnDash rest with _ | ⟨t0, ts⟩
      · exact absurd h (splitOnDash_ne_nil rest)
      · rw [h] at ht
        rcases List.mem_cons.mp ht with h1 | h1
        · subst h1
          intro hm
          rcases List.mem_cons.mp hm with h2 | h2
          · exact hc h2.symm
          · exact ih t0 (h ▸ List.mem_cons_self t0 ts) h2
        · exact ih t (h ▸ List.mem_cons.mpr (Or.inr h1))

lemma splitOnDash_no_dash : ∀ (l : List Char), '-' ∉ l → splitOnDash l = [l] := by
  intro l
  induction l with
  | nil => intro _; rfl
  | cons c rest ih =>
    intro h
    have hc : ¬(c = '-') := fun e => h (List.mem_cons.mpr (Or.inl e.symm))
    rw [splitOnDash, if_neg hc, ih (fun hm => h (List.mem_cons.mpr (Or.inr hm)))]

lemma splitOnDash_append : ∀ (a b : List Char), '-' ∉ a →
    splitOnDash (a ++ '-' :: b) = a :: splitOnDash b := by
  intro a
  induction a with
  | nil =>
    intro b _
    simp [splitOnDash]
  | cons c rest ih =>
    intro b h
    have hc : ¬(c = '-') := fun e => h (List.mem_cons.mpr (Or.inl e.symm))
    have hr := ih b (fun hm => h (List.mem_cons.mpr (Or.inr hm)))
    rw [List.cons_append, splitOnDash, if_neg hc, hr]

lemma dropWhile_eq_self_of {α : Type} {p : α → Bool} (l : List α)
    (h : ∀ c ∈ l, p c = false) : l.dropWhile p = l := by
  cases l with
  | nil => rfl
  | cons c rest => simp [List.dropWhile_cons, h c (List.mem_cons_self c rest)]

lemma mem_dropWhile {α : Type} {p : α → Bool} {c : α} :
    ∀ {l : List α}, c ∈ l.dropWhile p → c ∈ l := by
  intro l
  induction l with
  | nil => intro h; simp at h
  | cons a rest ih =>
    intro h
    rw [List.dropWhile_cons] at h
    by_cases hp : p a = true
    · rw [if_pos hp] at h
      exact List.mem_cons.mpr (Or.inr (ih h))
    · rw [if_neg hp] at h
      exact h

lemma stripPy_eq_self (l : List Char) (h : ∀ c ∈ l, isPySpace c = false) :
    stripPy l = l := by
  unfold stripPy
  rw [dropWhile_eq_self_of l h,
    dropWhile_eq_self_of l.reverse (fun c hc => h c (List.mem_reverse.mp hc)),
    List.reverse_reverse]

lemma mem_stripPy {c : Char} {l : List Char} (h : c ∈ stripPy l) : c ∈ l := by
  unfold stripPy at h
  rw [List.mem_reverse] at h
  exact mem_dropWhile (List.mem_reverse.mp (mem_dropWhile h))

lemma not_special_of_isDigit {c : Char} (h : c.isDigit = true) :
    c ≠ '+' ∧ c ≠ '-' ∧ c ≠ '_' ∧ c ≠ ' ' ∧ c ≠ ',' ∧ c ≠ 'â' ∧ c ≠ '–' ∧ c ≠ '—' := by
  refine ⟨?_, ?_, ?_, ?_, ?_, ?_, ?_, ?_⟩ <;>
    exact fun e => absurd (e ▸ h) (by decide)

lemma isPySpace_eq_false_of_isDigit {c : Char} (h : c.isDigit = true) :
    isPySpace c = false := by
  by_cases h1 : c = ' '
  · exact absurd (h1 ▸ h) (by decide)
  by_cases h2 : c = '\t'
  · exact absurd (h2 ▸ h) (by decide)
  by_cases h3 : c = '\n'
  · exact absurd (h3 ▸ h) (by decide)
  by_cases h4 : c = '\r'
  · exact absurd (h4 ▸ h) (by decide)
  by_cases h5 : c = '\x0b'
  · exact absurd (h5 ▸ h) (by decide)
  by_cases h6 : c = '\x0c'
  · exact absurd (h6 ▸ h) (by decide)
  simp [isPySpace, h1, h2, h3, h4, h5, h6]

lemma digitsTail_of_digits : ∀ (l : List Char), (∀ c ∈ l, c.isDigit = true) →
    digitsTail l = true := by
  intro l
  induction l with
  | nil => intro _; rfl
  | cons c rest ih =>
    intro h
    have hc := h c (List.mem_cons_self c rest)
    have hne : ¬(c = '_') := (not_special_of_isDigit hc).2.2.1
    rw [digitsTail.eq_def]
    simp [if_neg hne, hc, ih (fun x hx => h x (List.mem_cons.mpr (Or.inr hx)))]

lemma uintOk_of_digits (l : List Char) (hne : l ≠ []) (h : ∀ c ∈ l, c.isDigit = true) :
    uintOk l = true := by
  cases l with
  | nil => exact absurd rfl hne
  | cons c rest =>
    rw [uintOk, h c (List.mem_cons_self c rest),
      digitsTail_of_digits rest (fun x hx => h x (List.mem_cons.mpr (Or.inr hx)))]
    rfl

lemma pyInt_digits (l : List Char) (hne : l ≠ []) (h : ∀ c ∈ l, c.isDigit = true) :
    pyInt l = some (parseDigits l) := by
  have hs : stripPy l = l :=
    stripPy_eq_self l (fun c hc => isPySpace_eq_false_of_isDigit (h c hc))
  unfold pyInt
  rw [hs]
  split
  · exact absurd (h '+' (List.mem_cons_self _ _)) (by decide)
  · exact absurd (h '-' (List.mem_cons_self _ _)) (by decide)
  · simp [uintOk_of_digits l hne h, List.filter_eq_self.mpr h]

lemma pyInt_nonneg {l : List Char} {v : ℤ} (hnd : '-' ∉ l) (h : pyInt l = some v) :
    0 ≤ v := by
  unfold pyInt at h
  split at h
  · split at h
    · rw [Option.some.injEq] at h
      subst h
      exact Int.natCast_nonneg _
    · exact absurd h (by simp)
  · rename_i rest heq
    exact absurd (mem_stripPy (heq ▸ List.mem_cons_self '-' rest)) hnd
  · split at h
    · rw [Option.some.injEq] at h
      subst h
      exact Int.natCast_nonneg _
    · exact absurd h (by simp)

lemma parse_interval_nonneg {s : String} {a b : ℤ}
    (h : parse_interval s = some (a, b)) : 0 ≤ a ∧ 0 ≤ b := by
  unfold parse_interval at h
  split at h
  · rename_i x y heq
    have hx : '-' ∉ x := mem_splitOnDash s.data x (heq ▸ List.mem_cons_self x [y])
    have hy : '-' ∉ y :=
      mem_splitOnDash s.data y (heq ▸ List.mem_cons.mpr (Or.inr (List.mem_cons_self y [])))
    split at h
    · rename_i u v hu hv
      rw [Option.some.injEq, Prod.mk.injEq] at h
      obtain ⟨ha, hb⟩ := h
      exact ⟨ha ▸ pyInt_nonneg hx hu, hb ▸ pyInt_nonneg hy hv⟩
    · exact absurd h (by simp)
  · exact absurd h (by simp)

lemma cleanChars_append : ∀ (a b : List Char),
    cleanChars (a ++ b) = cleanChars a ++ cleanChars b := by
  intro a b
  induction a with
  | nil => rfl
  | cons c rest ih =>
    simp only [List.cons_append, cleanChars]
    split_ifs <;> simp [ih]

lemma cleanChars_of_filter : ∀ (sa D : List Char),
    sa.filter (fun c => !isNoise c) = D → (∀ c ∈ D, c.isDigit = true) →
    cleanChars sa = D := by
  intro sa
  induction sa with
  | nil =>
    intro D hD _
    rw [List.filter_nil] at hD
    exact hD
  | cons c rest ih =>
    intro D hD hdig
    by_cases hsp : c = ' ' ∨ c = ','
    · have hn : isNoise c = true := by
        rcases hsp with h | h <;> simp [isNoise, h]
      rw [List.filter_cons, if_neg (by simp [hn])] at hD
      have hnd : ¬(c = 'â' ∨ c = '–' ∨ c = '—') := by
        rcases hsp with h | h <;> subst h <;> decide
      rw [cleanChars, if_neg hnd, if_pos hsp]
      exact ih D hD hdig
    · have hn : isNoise c = false := by
        simp [isNoise]
        constructor
        · exact fun e => hsp (Or.inl e)
        · exact fun e => hsp (Or.inr e)
      rw [List.filter_cons, if_pos (by simp [hn])] at hD
      rcases D with _ | ⟨d0, D'⟩
      · exact absurd hD (by simp)
      · rw [List.cons.injEq] at hD
        obtain ⟨hc0, hrest⟩ := hD
        subst hc0
        have hcd : c.isDigit = true := hdig c (List.mem_cons_self c D')
        have hnd : ¬(c = 'â' ∨ c = '–' ∨ c = '—') := by
          have hf := not_special_of_isDigit hcd
          rintro (e | e | e)
          · exact hf.2.2.2.2.2.1 e
          · exact hf.2.2.2.2.2.2.1 e
          · exact hf.2.2.2.2.2.2.2 e
        rw [cleanChars, if_neg hnd, if_neg hsp]
        rw [ih D' hrest (fun x hx => hdig x (List.mem_cons.mpr (Or.inr hx)))]

lemma repOfRow_nonneg (row : ClassRow) : 0 ≤ repOfRow row := by
  unfold repOfRow
  split
  · rename_i a b heq
    obtain ⟨ha, hb⟩ := parse_interval_nonneg heq
    have ha' : (0 : ℚ) ≤ (a : ℚ) := by exact_mod_cast ha
    have hb' : (0 : ℚ) ≤ (b : ℚ) := by exact_mod_cast hb
    exact Int.ceil_nonneg (by linarith)
  · exact le_refl 0

lemma get_simulation_valueAux_nonneg : ∀ (df : List ClassRow) (lower r : ℤ),
    0 ≤ get_simulation_valueAux df lower r := by
  intro df
  induction df with
  | nil => intro lower r; exact le_refl 0
  | cons row rest ih =>
    intro lower r
    rw [get_simulation_valueAux]
    split
    · exact repOfRow_nonneg row
    · exact ih _ r

lemma get_simulation_value_nonneg (df : List ClassRow) (r : ℤ) :
    0 ≤ get_simulation_value df r :=
  get_simulation_valueAux_nonneg df 0 r

lemma sampleSpec_cons_pos (e : DistributionEntry) (table : List DistributionEntry)
    (d : ℤ) (h : e.rangeLow ≤ d ∧ d ≤ e.rangeHigh) :
    sampleSpec (e :: table) d = e.representative := by
  unfold sampleSpec
  simp only [List.find?]
  rw [decide_eq_true h]

lemma sampleSpec_cons_neg (e : DistributionEntry) (table : List DistributionEntry)
    (d : ℤ) (h : ¬(e.rangeLow ≤ d ∧ d ≤ e.rangeHigh)) :
    sampleSpec (e :: table) d = sampleSpec table d := by
  unfold sampleSpec
  simp only [List.find?]
  rw [decide_eq_false h]

lemma get_simulation_valueAux_eq_sampleSpec :
    ∀ (df : List ClassRow) (lower r : ℤ),
      get_simulation_valueAux df lower r = sampleSpec (buildTableAux df lower) r := by
  intro df
  induction df with
  | nil => intro lower r; rfl
  | cons row rest ih =>
    intro lower r
    by_cases hcond : lower ≤ r ∧ r ≤ rnd row.cumPct
    · rw [get_simulation_valueAux, if_pos hcond, buildTableAux,
        sampleSpec_cons_pos _ _ _ hcond]
    · rw [get_simulation_valueAux, if_neg hcond, buildTableAux,
        sampleSpec_cons_neg _ _ _ hcond]
      exact ih _ r

lemma rnd59 : rnd (59 : ℚ) = 59 := by unfold rnd; norm_num

lemma rnd99 : rnd (99 : ℚ) = 99 := by unfold rnd; norm_num

lemma rnd100 : rnd (100 : ℚ) = 100 := by unfold rnd; norm_num

lemma rnd997 : rnd (997/10 : ℚ) = 100 := by unfold rnd; norm_num

/-- Two-class table of the spec's scenario: after construction the
random ranges are 0–59 (representative 10) and 60–99 (representative
50). -/
def twoClassRows : List ClassRow := [⟨"5-15", 59⟩, ⟨"45-55", 99⟩]

lemma parse_5_15 : parse_interval (clean_interval_string "5-15") = some (5, 15) := by decide

lemma parse_45_55 : parse_interval (clean_interval_string "45-55") = some (45, 55) := by decide

lemma repOfRow_5_15 : repOfRow ⟨"5-15", 59⟩ = 10 := by
  simp [repOfRow, parse_5_15]
  norm_num

lemma repOfRow_45_55 : repOfRow ⟨"45-55", 99⟩ = 50 := by
  simp [repOfRow, parse_45_55]
  norm_num

lemma buildTable_twoClass : buildTable twoClassRows = [⟨10, 0, 59⟩, ⟨50, 60, 99⟩] := by
  simp [buildTable, buildTableAux, twoClassRows, rnd59, rnd99, repOfRow_5_15, repOfRow_45_55]

lemma sample_twoClass_59 : get_simulation_value twoClassRows 59 = 10 := by
  simp [get_simulation_value, get_simulation_valueAux, twoClassRows, rnd59, rnd99,
    repOfRow_5_15, repOfRow_45_55]

lemma sample_twoClass_60 : get_simulation_value twoClassRows 60 = 50 := by
  simp [get_simulation_value, get_simulation_valueAux, twoClassRows, rnd59, rnd99,
    repOfRow_5_15, repOfRow_45_55]

/-- C2: the sampler scans table entries in stored order and returns the
representative value of the first entry whose random range contains the
draw, `0` when no entry's range contains it: `get_simulation_value`
coincides with the spec's `sampleSpec` on the table built from the same
rows; on the two-class table with ranges 0–59 → representative 10 and
60–99 → representative 50, draw 59 yields 10 and draw 60 yields 50. -/
theorem sampler_first_match :
    (∀ (df : List ClassRow) (d : ℤ), get_simulation_value df d = sampleSpec (buildTable df) d) ∧
    buildTable twoClassRows = [⟨10, 0, 59⟩, ⟨50, 60, 99⟩] ∧
    get_simulation_value twoClassRows 59 = 10 ∧
    get_simulation_value twoClassRows 60 = 50 :=
  ⟨fun df d => get_simulation_valueAux_eq_sampleSpec df 0 d,
    buildTable_twoClass, sample_twoClass_59, sample_twoClass_60⟩

/-- C6 (amended): for nonnegative integers `low ≤ high`, a label made of
a digit string for `low`, any supported dash variant, and a digit string
for `high` — with spaces and thousands-separator commas interleaved
anywhere — cleans and parses back to exactly `(low, high)`.  The
original claim also allowed negative `low`: a leading minus sign is
split off by `split('-')` and parsing fails (see the counterexample). -/
theorem parse_clean_roundtrip (low high : ℤ) (sa sb Da Db : List Char) (dash : Char)
    (hdash : dash = '-' ∨ dash = 'â' ∨ dash = '–' ∨ dash = '—')
    (hfa : sa.filter (fun c => !isNoise c) = Da) (hane : Da ≠ [])
    (hadig : ∀ c ∈ Da, c.isDigit = true) (haval : (parseDigits Da : ℤ) = low)
    (hfb : sb.filter (fun c => !isNoise c) = Db) (hbne : Db ≠ [])
    (hbdig : ∀ c ∈ Db, c.isDigit = true) (hbval : (parseDigits Db : ℤ) = high)
    (hlh : low ≤ high) :
    parse_interval (clean_interval_string ⟨sa ++ dash :: sb⟩) = some (low, high) := by
  have hca : cleanChars sa = Da := cleanChars_of_filter sa Da hfa hadig
  have hcb : cleanChars sb = Db := cleanChars_of_filter sb Db hfb hbdig
  have hcd : cleanChars [dash] = ['-'] := by
    rcases hdash with h | h | h | h <;> subst h <;> rfl
  have hclean : cleanChars (sa ++ dash :: sb) = Da ++ '-' :: Db := by
    rw [show dash :: sb = [dash] ++ sb from rfl, cleanChars_append, cleanChars_append,
      hca, hcd, hcb]
    rfl
  have hnda : '-' ∉ Da := fun hm => absurd (hadig '-' hm) (by decide)
  have hndb : '-' ∉ Db := fun hm => absurd (hbdig '-' hm) (by decide)
  show (match splitOnDash (cleanChars (sa ++ dash :: sb)) with
    | [a, b] =>
      match pyInt a, pyInt b with
      | some x, some y => some (x, y)
      | _, _ => none
    | _ => none) = some (low, high)
  rw [hclean, splitOnDash_append Da Db hnda, splitOnDash_no_dash Db hndb]
  show (match pyInt Da, pyInt Db with
    | some x, some y => some (x, y)
    | _, _ => none) = some (low, high)
  rw [pyInt_digits Da hane hadig, pyInt_digits Db hbne hbdig]
  show some ((parseDigits Da : ℤ), (parseDigits Db : ℤ)) = some (low, high)
  rw [haval, hbval]

/-- C6 counterexample: the label `-5-3` has the form `low-high` with
integers `low = -5 ≤ 3 = high`, yet cleaning and parsing yields `none`
(the split on `-` produces three pieces), not `(-5, 3)`. -/
theorem parse_clean_counterexample :
    parse_interval (clean_interval_string "-5-3") = none ∧
    parse_interval (clean_interval_string "-5-3") ≠ some (-5, 3) := by
  constructor <;> decide

/-- C6 witness: the label `" 1,0–2 5,"` (spaces and commas as noise, an
en-dash) parses to `(10, 25)`. -/
theorem parse_clean_witness :
    parse_interval (clean_interval_string ⟨" 1,0".data ++ '–' :: "2 5,".data⟩) =
      some (10, 25) :=
  parse_clean_roundtrip 10 25 " 1,0".data "2 5,".data "10".data "25".data '–'
    (by decide) (by decide) (by decide) (by decide) (by decide)
    (by decide) (by decide) (by decide) (by decide) (by decide)

/-- C7: for malformed labels — a split on `-` that does not give exactly
two pieces (missing hyphen or too many hyphens), or a piece that is not
an integer literal — `parse_interval` returns `none`; it is a total
function (the Python `ValueError` is caught), so it never raises. -/
theorem parse_malformed_none (s : String) :
    ((splitOnDash s.data).length ≠ 2 → parse_interval s = none) ∧
    (∀ a b, splitOnDash s.data = [a, b] → pyInt a = none ∨ pyInt b = none →
      parse_interval s = none) := by
  constructor
  · intro hlen
    unfold parse_interval
    split
    · rename_i x y heq
      exact absurd (by rw [heq]; rfl) hlen
    · rfl
  · intro a b heq hfail
    unfold parse_interval
    split
    · rename_i x y heq2
      rw [heq] at heq2
      rw [List.cons.injEq, List.cons.injEq] at heq2
      obtain ⟨hax, hby, -⟩ := heq2
      split
      · rename_i u v hu hv
        rcases hfail with hf | hf
        · rw [← hax, hf] at hu; exact absurd hu (by simp)
        · rw [← hby, hf] at hv; exact absurd hv (by simp)
      · rfl
    · rfl

/-- C7 witness: the hyphen-free label `abc` and the three-piece label
`1-2-3` both parse to `none`, as does `5-x` whose second piece is not an
integer literal. -/
theorem parse_malformed_witness :
    parse_interval "abc" = none ∧ parse_interval "1-2-3" = none ∧
    parse_interval "5-x" = none :=
  ⟨(parse_malformed_none "abc").1 (by decide),
    (parse_malformed_none "1-2-3").1 (by decide),
    (parse_malformed_none "5-x").2 "5".data "x".data (by decide) (Or.inr (by decide))⟩

/-- C9 (amended): every successfully parsed pair consists of two
nonnegative integers — hyphens act as separators, so no piece can carry
a minus sign.  The originally claimed ordering `low ≤ high` is not
validated by `parse_interval` (see the counterexample). -/
theorem parse_pair_nonneg (s : String) (a b : ℤ)
    (h : parse_interval s = some (a, b)) : 0 ≤ a ∧ 0 ≤ b :=
  parse_interval_nonneg h

/-- C9 counterexample: `parse_interval` accepts the label `30-10` and
returns `(30, 10)` with `30 > 10`, violating the claimed invariant
`low ≤ high`. -/
theorem parse_pair_counterexample :
    parse_interval "30-10" = some (30, 10) ∧ ¬((30 : ℤ) ≤ 10) := by
  constructor <;> decide

/-- C9 witness: the parsed pair of `3-7` is nonnegative. -/
theorem parse_pair_witness : 0 ≤ (3 : ℤ) ∧ 0 ≤ (7 : ℤ) :=
  parse_pair_nonneg "3-7" 3 7 (by decide)

lemma mem_run_iff {d : DistDict} {n : ℕ} {rng : ℕ → ℤ} {rec : SimulationRecord} :
    rec ∈ run_monte_carlo_simulation d n rng ↔
      ∃ i, i < n ∧ rec = simulateOnePeriod d i (rng (4 * i)) (rng (4 * i + 1))
        (rng (4 * i + 2)) (rng (4 * i + 3)) := by
  unfold run_monte_carlo_simulation
  simp only [List.mem_map, List.mem_range]
  constructor
  · rintro ⟨i, hi, he⟩
    exact ⟨i, hi, he.symm⟩
  · rintro ⟨i, hi, he⟩
    exact ⟨i, hi, he.symm⟩

lemma simulateOnePeriod_simA (d : DistDict) (i : ℕ) (ra rb rab ro : ℤ) :
    (simulateOnePeriod d i ra rb rab ro).simA = get_simulation_value (getTable d.A) ra := rfl

lemma simulateOnePeriod_simB (d : DistDict) (i : ℕ) (ra rb rab ro : ℤ) :
    (simulateOnePeriod d i ra rb rab ro).simB = get_simulation_value (getTable d.B) rb := rfl

lemma simulateOnePeriod_simAB (d : DistDict) (i : ℕ) (ra rb rab ro : ℤ) :
    (simulateOnePeriod d i ra rb rab ro).simAB = get_simulation_value (getTable d.AB) rab := rfl

lemma simulateOnePeriod_simO (d : DistDict) (i : ℕ) (ra rb rab ro : ℤ) :
    (simulateOnePeriod d i ra rb rab ro).simO = get_simulation_value (getTable d.O) ro := rfl

lemma simulateOnePeriod_total (d : DistDict) (i : ℕ) (ra rb rab ro : ℤ) :
    (simulateOnePeriod d i ra rb rab ro).totalSim =
      (simulateOnePeriod d i ra rb rab ro).simA + (simulateOnePeriod d i ra rb rab ro).simB +
      (simulateOnePeriod d i ra rb rab ro).simAB + (simulateOnePeriod d i ra rb rab ro).simO := rfl

lemma simulateOnePeriod_pmkA (d : DistDict) (i : ℕ) (ra rb rab ro : ℤ) :
    (simulateOnePeriod d i ra rb rab ro).pmkA =
      if (simulateOnePeriod d i ra rb rab ro).totalSim ≠ 0
      then ((simulateOnePeriod d i ra rb rab ro).simA : ℚ) /
        ((simulateOnePeriod d i ra rb rab ro).totalSim : ℚ) * 100
      else 0 := rfl

lemma simulateOnePeriod_pmkB (d : DistDict) (i : ℕ) (ra rb rab ro : ℤ) :
    (simulateOnePeriod d i ra rb rab ro).pmkB =
      if (simulateOnePeriod d i ra rb rab ro).totalSim ≠ 0
      then ((simulateOnePeriod d i ra rb rab ro).simB : ℚ) /
        ((simulateOnePeriod d i ra rb rab ro).totalSim : ℚ) * 100
      else 0 := rfl

lemma simulateOnePeriod_pmkAB (d : DistDict) (i : ℕ) (ra rb rab ro : ℤ) :
    (simulateOnePeriod d i ra rb rab ro).pmkAB =
      if (simulateOnePeriod d i ra rb rab ro).totalSim ≠ 0
      then ((simulateOnePeriod d i ra rb rab ro).simAB : ℚ) /
        ((simulateOnePeriod d i ra rb rab ro).totalSim : ℚ) * 100
      else 0 := rfl

lemma simulateOnePeriod_pmkO (d : DistDict) (i : ℕ) (ra rb rab ro : ℤ) :
    (simulateOnePeriod d i ra rb rab ro).pmkO =
      if (simulateOnePeriod d i ra rb rab ro).totalSim ≠ 0
      then ((simulateOnePeriod d i ra rb rab ro).simO : ℚ) /
        ((simulateOnePeriod d i ra rb rab ro).totalSim : ℚ) * 100
      else 0 := rfl

lemma simulateOnePeriod_spec (d : DistDict) (i : ℕ) (ra rb rab ro : ℤ) :
    (simulateOnePeriod d i ra rb rab ro).totalSim =
      (simulateOnePeriod d i ra rb rab ro).simA + (simulateOnePeriod d i ra rb rab ro).simB +
      (simulateOnePeriod d i ra rb rab ro).simAB + (simulateOnePeriod d i ra rb rab ro).simO ∧
    (0 < (simulateOnePeriod d i ra rb rab ro).totalSim →
      (simulateOnePeriod d i ra rb rab ro).pmkA =
        ((simulateOnePeriod d i ra rb rab ro).simA : ℚ) /
          ((simulateOnePeriod d i ra rb rab ro).totalSim : ℚ) * 100 ∧
      (simulateOnePeriod d i ra rb rab ro).pmkB =
        ((simulateOnePeriod d i ra rb rab ro).simB : ℚ) /
          ((simulateOnePeriod d i ra rb rab ro).totalSim : ℚ) * 100 ∧
      (simulateOnePeriod d i ra rb rab ro).pmkAB =
        ((simulateOnePeriod d i ra rb rab ro).simAB : ℚ) /
          ((simulateOnePeriod d i ra rb rab ro).totalSim : ℚ) * 100 ∧
      (simulateOnePeriod d i ra rb rab ro).pmkO =
        ((simulateOnePeriod d i ra rb rab ro).simO : ℚ) /
          ((simulateOnePeriod d i ra rb rab ro).totalSim : ℚ) * 100 ∧
      (simulateOnePeriod d i ra rb rab ro).pmkA + (simulateOnePeriod d i ra rb rab ro).pmkB +
        (simulateOnePeriod d i ra rb rab ro).pmkAB +
        (simulateOnePeriod d i ra rb rab ro).pmkO = 100) ∧
    ((simulateOnePeriod d i ra rb rab ro).totalSim = 0 →
      (simulateOnePeriod d i ra rb rab ro).pmkA = 0 ∧
      (simulateOnePeriod d i ra rb rab ro).pmkB = 0 ∧
      (simulateOnePeriod d i ra rb rab ro).pmkAB = 0 ∧
      (simulateOnePeriod d i ra rb rab ro).pmkO = 0) := by
  refine ⟨simulateOnePeriod_total d i ra rb rab ro, ?_, ?_⟩
  · intro hpos
    have hne : (simulateOnePeriod d i ra rb rab ro).totalSim ≠ 0 := ne_of_gt hpos
    have hneQ : ((simulateOnePeriod d i ra rb rab ro).totalSim : ℚ) ≠ 0 := by
      exact_mod_cast hne
    have hA := simulateOnePeriod_pmkA d i ra rb rab ro
    have hB := simulateOnePeriod_pmkB d i ra rb rab ro
    have hAB := simulateOnePeriod_pmkAB d i ra rb rab ro
    have hO := simulateOnePeriod_pmkO d i ra rb rab ro
    rw [if_pos hne] at hA hB hAB hO
    refine ⟨hA, hB, hAB, hO, ?_⟩
    rw [hA, hB, hAB, hO]
    have hsum : ((simulateOnePeriod d i ra rb rab ro).simA : ℚ) +
        ((simulateOnePeriod d i ra rb rab ro).simB : ℚ) +
        ((simulateOnePeriod d i ra rb rab ro).simAB : ℚ) +
        ((simulateOnePeriod d i ra rb rab ro).simO : ℚ) =
        ((simulateOnePeriod d i ra rb rab ro).totalSim : ℚ) := by
      rw [simulateOnePeriod_total d i ra rb rab ro]
      push_cast
      ring
    field_simp
    linarith [hsum]
  · intro h0
    have hA := simulateOnePeriod_pmkA d i ra rb rab ro
    have hB := simulateOnePeriod_pmkB d i ra rb rab ro
    have hAB := simulateOnePeriod_pmkAB d i ra rb rab ro
    have hO := simulateOnePeriod_pmkO d i ra rb rab ro
    rw [if_neg (by simp [h0])] at hA hB hAB hO
    exact ⟨hA, hB, hAB, hO⟩

/-- C3: every record produced by the engine has `totalSim` equal to the
sum of the four sampled values; when the total is positive each share is
`sampled / total * 100` and the four shares sum exactly to `100`; when
the total is zero all four shares are `0`. -/
theorem record_total_and_shares (d : DistDict) (n : ℕ) (rng : ℕ → ℤ)
    (rec : SimulationRecord) (hmem : rec ∈ run_monte_carlo_simulation d n rng) :
    rec.totalSim = rec.simA + rec.simB + rec.simAB + rec.simO ∧
    (0 < rec.totalSim →
      rec.pmkA = (rec.simA : ℚ) / (rec.totalSim : ℚ) * 100 ∧
      rec.pmkB = (rec.simB : ℚ) / (rec.totalSim : ℚ) * 100 ∧
      rec.pmkAB = (rec.simAB : ℚ) / (rec.totalSim : ℚ) * 100 ∧
      rec.pmkO = (rec.simO : ℚ) / (rec.totalSim : ℚ) * 100 ∧
      rec.pmkA + rec.pmkB + rec.pmkAB + rec.pmkO = 100) ∧
    (rec.totalSim = 0 →
      rec.pmkA = 0 ∧ rec.pmkB = 0 ∧ rec.pmkAB = 0 ∧ rec.pmkO = 0) := by
  obtain ⟨i, hi, hrec⟩ := mem_run_iff.mp hmem
  subst hrec
  exact simulateOnePeriod_spec d i _ _ _ _

/-- Dictionary with all four categories mapped to the two-class table of
the spec's scenario. -/
def dict1 : DistDict := ⟨some twoClassRows, some twoClassRows, some twoClassRows, some twoClassRows⟩

/-- C3 witness: the single record of a one-period run over `dict1` is in
the run's output and satisfies the total invariant. -/
theorem record_total_and_shares_witness :
    simulateOnePeriod dict1 0 0 0 0 0 ∈ run_monte_carlo_simulation dict1 1 (fun _ => 0) ∧
    (simulateOnePeriod dict1 0 0 0 0 0).totalSim =
      (simulateOnePeriod dict1 0 0 0 0 0).simA + (simulateOnePeriod dict1 0 0 0 0 0).simB +
      (simulateOnePeriod dict1 0 0 0 0 0).simAB + (simulateOnePeriod dict1 0 0 0 0 0).simO := by
  have hmem : simulateOnePeriod dict1 0 0 0 0 0 ∈ run_monte_carlo_simulation dict1 1 (fun _ => 0) :=
    List.mem_singleton.mpr rfl
  exact ⟨hmem, (record_total_and_shares dict1 1 (fun _ => 0) _ hmem).1⟩

/-- C4: the engine emits exactly `periods` records, in order, with
period numbers `1, 2, …, periods`; record `i` (0-based) holds exactly
the four fresh draws `rng (4*i), …, rng (4*i+3)` — one per category,
none shared with another period — and when the draw source stays in
`[0, 99]` (as `random.randint(0, 99)` does) the recorded draws do
too. -/
theorem run_emits_records_in_order (d : DistDict) (n : ℕ) (rng : ℕ → ℤ)
    (hb : ∀ k, 0 ≤ rng k ∧ rng k ≤ 99) :
    (run_monte_carlo_simulation d n rng).length = n ∧
    ∀ i (h : i < (run_monte_carlo_simulation d n rng).length),
      ((run_monte_carlo_simulation d n rng).get ⟨i, h⟩).periode = (i : ℤ) + 1 ∧
      ((run_monte_carlo_simulation d n rng).get ⟨i, h⟩).angkaAcakA = rng (4 * i) ∧
      ((run_monte_carlo_simulation d n rng).get ⟨i, h⟩).angkaAcakB = rng (4 * i + 1) ∧
      ((run_monte_carlo_simulation d n rng).get ⟨i, h⟩).angkaAcakAB = rng (4 * i + 2) ∧
      ((run_monte_carlo_simulation d n rng).get ⟨i, h⟩).angkaAcakO = rng (4 * i + 3) ∧
      (0 ≤ ((run_monte_carlo_simulation d n rng).get ⟨i, h⟩).angkaAcakA ∧
        ((run_monte_carlo_simulation d n rng).get ⟨i, h⟩).angkaAcakA ≤ 99) ∧
      (0 ≤ ((run_monte_carlo_simulation d n rng).get ⟨i, h⟩).angkaAcakB ∧
        ((run_monte_carlo_simulation d n rng).get ⟨i, h⟩).angkaAcakB ≤ 99) ∧
      (0 ≤ ((run_monte_carlo_simulation d n rng).get ⟨i, h⟩).angkaAcakAB ∧
        ((run_monte_carlo_simulation d n rng).get ⟨i, h⟩).angkaAcakAB ≤ 99) ∧
      (0 ≤ ((run_monte_carlo_simulation d n rng).get ⟨i, h⟩).angkaAcakO ∧
        ((run_monte_carlo_simulation d n rng).get ⟨i, h⟩).angkaAcakO ≤ 99) := by
  have hlen : (run_monte_carlo_simulation d n rng).length = n := by
    simp [run_monte_carlo_simulation]
  refine ⟨hlen, ?_⟩
  intro i h
  have hget : (run_monte_carlo_simulation d n rng).get ⟨i, h⟩ =
      simulateOnePeriod d i (rng (4 * i)) (rng (4 * i + 1)) (rng (4 * i + 2))
        (rng (4 * i + 3)) := by
    simp [run_monte_carlo_simulation, List.get_eq_getElem]
  rw [hget]
  exact ⟨rfl, rfl, rfl, rfl, rfl, hb _, hb _, hb _, hb _⟩

/-- C4 witness: a one-period run with the constant draw source `7`. -/
theorem run_emits_records_witness :
    (run_monte_carlo_simulation dict1 1 (fun _ => 7)).length = 1 ∧
    ∀ i (h : i < (run_monte_carlo_simulation dict1 1 (fun _ => 7)).length),
      ((run_monte_carlo_simulation dict1 1 (fun _ => 7)).get ⟨i, h⟩).periode = (i : ℤ) + 1 ∧
      ((run_monte_carlo_simulation dict1 1 (fun _ => 7)).get ⟨i, h⟩).angkaAcakA = 7 ∧
      ((run_monte_carlo_simulation dict1 1 (fun _ => 7)).get ⟨i, h⟩).angkaAcakB = 7 ∧
      ((run_monte_carlo_simulation dict1 1 (fun _ => 7)).get ⟨i, h⟩).angkaAcakAB = 7 ∧
      ((run_monte_carlo_simulation dict1 1 (fun _ => 7)).get ⟨i, h⟩).angkaAcakO = 7 ∧
      (0 ≤ ((run_monte_carlo_simulation dict1 1 (fun _ => 7)).get ⟨i, h⟩).angkaAcakA ∧
        ((run_monte_carlo_simulation dict1 1 (fun _ => 7)).get ⟨i, h⟩).angkaAcakA ≤ 99) ∧
      (0 ≤ ((run_monte_carlo_simulation dict1 1 (fun _ => 7)).get ⟨i, h⟩).angkaAcakB ∧
        ((run_monte_carlo_simulation dict1 1 (fun _ => 7)).get ⟨i, h⟩).angkaAcakB ≤ 99) ∧
      (0 ≤ ((run_monte_carlo_simulation dict1 1 (fun _ => 7)).get ⟨i, h⟩).angkaAcakAB ∧
        ((run_monte_carlo_simulation dict1 1 (fun _ => 7)).get ⟨i, h⟩).angkaAcakAB ≤ 99) ∧
      (0 ≤ ((run_monte_carlo_simulation dict1 1 (fun _ => 7)).get ⟨i, h⟩).angkaAcakO ∧
        ((run_monte_carlo_simulation dict1 1 (fun _ => 7)).get ⟨i, h⟩).angkaAcakO ≤ 99) :=
  run_emits_records_in_order dict1 1 (fun _ => 7)
    (fun _ => ⟨by norm_num, by norm_num⟩)

/-- C5: the engine is a pure function of its inputs — two draw sources
that agree on the `4 * periods` draws actually consumed produce
identical record sequences, so with the same tables, period count and
seeded draw sequence the output is reproducible. -/
theorem run_reproducible (d : DistDict) (n : ℕ) (rng1 rng2 : ℕ → ℤ)
    (h : ∀ k, k < 4 * n → rng1 k = rng2 k) :
    run_monte_carlo_simulation d n rng1 = run_monte_carlo_simulation d n rng2 := by
  unfold run_monte_carlo_simulation
  apply List.map_congr_left
  intro i hi
  rw [List.mem_range] at hi
  rw [h (4 * i) (by omega), h (4 * i + 1) (by omega), h (4 * i + 2) (by omega),
    h (4 * i + 3) (by omega)]

/-- C5 witness: two draw sources agreeing on the first eight draws give
the same two-period run. -/
theorem run_reproducible_witness :
    run_monte_carlo_simulation dict1 2 (fun k => (k : ℤ)) =
      run_monte_carlo_simulation dict1 2 (fun k => if k < 8 then (k : ℤ) else 99) :=
  run_reproducible dict1 2 _ _ (fun k hk => by simp [hk])

lemma pmk_eq_zero_of_sim_eq_zero {total : ℤ} {s : ℚ}
    (hs : s = 0) : (if total ≠ 0 then s / (total : ℚ) * 100 else 0) = 0 := by
  split
  · rw [hs]; ring
  · rfl

/-- C8: a missing category table does not fail the simulation — for
every period and draw source, that category's sampled value is `0`, the
total reduces to the sum of the other three categories, and the
category's share percentage is `0`. -/
theorem missing_table_zero (d : DistDict) (n : ℕ) (rng : ℕ → ℤ)
    (rec : SimulationRecord) (hmem : rec ∈ run_monte_carlo_simulation d n rng) :
    (d.A = none → rec.simA = 0 ∧ rec.totalSim = rec.simB + rec.simAB + rec.simO ∧
      rec.pmkA = 0) ∧
    (d.B = none → rec.simB = 0 ∧ rec.totalSim = rec.simA + rec.simAB + rec.simO ∧
      rec.pmkB = 0) ∧
    (d.AB = none → rec.simAB = 0 ∧ rec.totalSim = rec.simA + rec.simB + rec.simO ∧
      rec.pmkAB = 0) ∧
    (d.O = none → rec.simO = 0 ∧ rec.totalSim = rec.simA + rec.simB + rec.simAB ∧
      rec.pmkO = 0) := by
  obtain ⟨i, hi, hrec⟩ := mem_run_iff.mp hmem
  subst hrec
  have htot := simulateOnePeriod_total d i (rng (4 * i)) (rng (4 * i + 1))
    (rng (4 * i + 2)) (rng (4 * i + 3))
  refine ⟨?_, ?_, ?_, ?_⟩
  · intro hA
    have hs : (simulateOnePeriod d i (rng (4 * i)) (rng (4 * i + 1)) (rng (4 * i + 2))
        (rng (4 * i + 3))).simA = 0 := by
      rw [simulateOnePeriod_simA, hA]
      rfl
    refine ⟨hs, by rw [htot, hs]; ring, ?_⟩
    rw [simulateOnePeriod_pmkA]
    exact pmk_eq_zero_of_sim_eq_zero (by exact_mod_cast hs)
  · intro hB
    have hs : (simulateOnePeriod d i (rng (4 * i)) (rng (4 * i + 1)) (rng (4 * i + 2))
        (rng (4 * i + 3))).simB = 0 := by
      rw [simulateOnePeriod_simB, hB]
      rfl
    refine ⟨hs, by rw [htot, hs]; ring, ?_⟩
    rw [simulateOnePeriod_pmkB]
    exact pmk_eq_zero_of_sim_eq_zero (by exact_mod_cast hs)
  · intro hAB
    have hs : (simulateOnePeriod d i (rng (4 * i)) (rng (4 * i + 1)) (rng (4 * i + 2))
        (rng (4 * i + 3))).simAB = 0 := by
      rw [simulateOnePeriod_simAB, hAB]
      rfl
    refine ⟨hs, by rw [htot, hs]; ring, ?_⟩
    rw [simulateOnePeriod_pmkAB]
    exact pmk_eq_zero_of_sim_eq_zero (by exact_mod_cast hs)
  · intro hO
    have hs : (simulateOnePeriod d i (rng (4 * i)) (rng (4 * i + 1)) (rng (4 * i + 2))
        (rng (4 * i + 3))).simO = 0 := by
      rw [simulateOnePeriod_simO, hO]
      rfl
    refine ⟨hs, by rw [htot, hs]; ring, ?_⟩
    rw [simulateOnePeriod_pmkO]
    exact pmk_eq_zero_of_sim_eq_zero (by exact_mod_cast hs)

/-- Dictionary with every category's table missing. -/
def dict0 : DistDict := ⟨none, none, none, none⟩

/-- C8 witness: with category A's table missing, the single record of a
one-period run samples `0` for A. -/
theorem missing_table_zero_witness :
    simulateOnePeriod dict0 0 3 3 3 3 ∈ run_monte_carlo_simulation dict0 1 (fun _ => 3) ∧
    (simulateOnePeriod dict0 0 3 3 3 3).simA = 0 := by
  have hmem : simulateOnePeriod dict0 0 3 3 3 3 ∈
      run_monte_carlo_simulation dict0 1 (fun _ => 3) :=
    List.mem_singleton.mpr rfl
  exact ⟨hmem, ((missing_table_zero dict0 1 (fun _ => 3) _ hmem).1 rfl).1⟩

lemma cumPct_le_getLast :
    ∀ (df : List ClassRow) (hne : df ≠ []),
      df.Pairwise (fun r s => r.cumPct ≤ s.cumPct) →
      ∀ row ∈ df, row.cumPct ≤ (df.getLast hne).cumPct := by
  intro df
  induction df with
  | nil => intro hne; exact absurd rfl hne
  | cons row rest ih =>
    intro hne hp r hr
    rcases List.pairwise_cons.mp hp with ⟨hhead, htail⟩
    cases rest with
    | nil =>
      rcases List.mem_singleton.mp hr with rfl
      exact le_refl _
    | cons row2 t =>
      rw [List.getLast_cons (by simp)]
      rcases List.mem_cons.mp hr with rfl | hr2
      · exact hhead _ (List.getLast_mem _)
      · exact ih (by simp) htail r hr2

lemma mem_buildRangesAux_iff :
    ∀ (df : List ClassRow) (hne : df ≠ []) (lower z : ℤ),
      df.Pairwise (fun r s => rnd r.cumPct ≤ rnd s.cumPct) →
      (∀ row ∈ df, lower - 1 ≤ rnd row.cumPct) →
      ((∃ p ∈ buildRangesAux df lower, p.1 ≤ z ∧ z ≤ p.2) ↔
        lower ≤ z ∧ z ≤ rnd ((df.getLast hne).cumPct)) := by
  intro df
  induction df with
  | nil => intro hne; exact absurd rfl hne
  | cons row rest ih =>
    intro hne lower z hp hlb
    rcases List.pairwise_cons.mp hp with ⟨hhead, htail⟩
    cases rest with
    | nil => simp [buildRangesAux]
    | cons row2 t =>
      rw [buildRangesAux, List.getLast_cons (by simp)]
      have hIH := ih (by simp) (rnd row.cumPct + 1) z htail
        (fun r hr => by have := hhead r hr; omega)
      have hhl : rnd row.cumPct ≤ rnd (((row2 :: t).getLast (by simp)).cumPct) :=
        hhead _ (List.getLast_mem _)
      have hlow : lower - 1 ≤ rnd row.cumPct := hlb row (List.mem_cons_self _ _)
      constructor
      · rintro ⟨p, hp2, hp3⟩
        rcases List.mem_cons.mp hp2 with rfl | hp4
        · exact ⟨hp3.1, le_trans hp3.2 hhl⟩
        · have hz := hIH.mp ⟨p, hp4, hp3⟩
          exact ⟨by omega, hz.2⟩
      · rintro ⟨hz1, hz2⟩
        by_cases hcase : z ≤ rnd row.cumPct
        · exact ⟨(lower, rnd row.cumPct), List.mem_cons_self _ _, hz1, hcase⟩
        · obtain ⟨p, hp4, hp3⟩ := hIH.mpr ⟨by omega, hz2⟩
          exact ⟨p, List.mem_cons.mpr (Or.inr hp4), hp3⟩

lemma le_fst_of_mem_buildRangesAux :
    ∀ (df : List ClassRow) (lower : ℤ),
      df.Pairwise (fun r s => rnd r.cumPct ≤ rnd s.cumPct) →
      (∀ row ∈ df, lower - 1 ≤ rnd row.cumPct) →
      ∀ p ∈ buildRangesAux df lower, lower ≤ p.1 := by
  intro df
  induction df with
  | nil =>
    intro lower _ _ p hp
    simp [buildRangesAux] at hp
  | cons row rest ih =>
    intro lower hp hlb p hmem
    rcases List.pairwise_cons.mp hp with ⟨hhead, htail⟩
    rw [buildRangesAux] at hmem
    rcases List.mem_cons.mp hmem with rfl | h2
    · exact le_refl lower
    · have hlow : lower - 1 ≤ rnd row.cumPct := hlb row (List.mem_cons_self _ _)
      have := ih (rnd row.cumPct + 1) htail (fun r hr => by have := hhead r hr; omega) p h2
      omega

lemma buildRangesAux_pairwise_disjoint :
    ∀ (df : List ClassRow) (lower : ℤ),
      df.Pairwise (fun r s => rnd r.cumPct ≤ rnd s.cumPct) →
      (∀ row ∈ df, lower - 1 ≤ rnd row.cumPct) →
      (buildRangesAux df lower).Pairwise
        (fun p q => ∀ z : ℤ, ¬(p.1 ≤ z ∧ z ≤ p.2 ∧ q.1 ≤ z ∧ z ≤ q.2)) := by
  intro df
  induction df with
  | nil =>
    intro lower _ _
    simp [buildRangesAux]
  | cons row rest ih =>
    intro lower hp hlb
    rcases List.pairwise_cons.mp hp with ⟨hhead, htail⟩
    rw [buildRangesAux]
    refine List.Pairwise.cons ?_
      (ih _ htail (fun r hr => by have := hhead r hr; omega))
    intro q hq z hcontra
    have h1 := le_fst_of_mem_buildRangesAux rest _ htail
      (fun r hr => by have := hhead r hr; omega) q hq
    dsimp only at hcontra
    obtain ⟨-, hz2, hz3, -⟩ := hcontra
    omega

lemma snd_mem_buildRangesAux :
    ∀ (df : List ClassRow) (lower : ℤ) (p : ℤ × ℤ), p ∈ buildRangesAux df lower →
      ∃ row ∈ df, p.2 = rnd row.cumPct := by
  intro df
  induction df with
  | nil =>
    intro lower p hp
    simp [buildRangesAux] at hp
  | cons row rest ih =>
    intro lower p hp
    rw [buildRangesAux] at hp
    rcases List.mem_cons.mp hp with rfl | h2
    · exact ⟨row, List.mem_cons_self _ _, rfl⟩
    · obtain ⟨r, hr1, hr2⟩ := ih _ p h2
      exact ⟨r, List.mem_cons.mpr (Or.inr hr1), hr2⟩

lemma buildRangesAux_ne_nil (df : List ClassRow) (hne : df ≠ []) (lower : ℤ) :
    buildRangesAux df lower ≠ [] := by
  cases df with
  | nil => exact absurd rfl hne
  | cons row rest => simp [buildRangesAux]

lemma getLast_buildRangesAux_snd :
    ∀ (df : List ClassRow) (hne : df ≠ []) (lower : ℤ)
      (h2 : buildRangesAux df lower ≠ []),
      ((buildRangesAux df lower).getLast h2).2 = rnd ((df.getLast hne).cumPct) := by
  intro df
  induction df with
  | nil => intro hne; exact absurd rfl hne
  | cons row rest ih =>
    intro hne lower h2
    cases rest with
    | nil => rfl
    | cons row2 t =>
      have hsub : buildRangesAux (row2 :: t) (rnd row.cumPct + 1) ≠ [] :=
        buildRangesAux_ne_nil _ (by simp) _
      show (((lower, rnd row.cumPct) ::
        buildRangesAux (row2 :: t) (rnd row.cumPct + 1)).getLast (by simp)).2 =
        rnd (((row :: row2 :: t).getLast hne).cumPct)
      rw [List.getLast_cons hsub, ih (by simp) _ hsub]
      conv_rhs => rw [List.getLast_cons (show row2 :: t ≠ [] by simp)]

/-- C1 (amended): for a table built from rows whose cumulative
percentages are nonnegative and strictly increase to exactly 100, the
random ranges partition `{0, …, 100}` — not `{0, …, 99}`: the union is
exactly the integers `0 ≤ z ≤ 100` with no gaps and no overlaps, every
`range_high` is at most `100`, and the final `range_high` is exactly
`100` (the source never clamps `int(round(100.0)) = 100` down to
`99`). -/
theorem ranges_partition (df : List ClassRow) (hne : df ≠ [])
    (hpos : ∀ row ∈ df, 0 ≤ row.cumPct)
    (hmono : df.Pairwise (fun r s => r.cumPct < s.cumPct))
    (hlast : (df.getLast hne).cumPct = 100) :
    (∀ z : ℤ, (∃ p ∈ buildRanges df, p.1 ≤ z ∧ z ≤ p.2) ↔ 0 ≤ z ∧ z ≤ 100) ∧
    (buildRanges df).Pairwise
      (fun p q => ∀ z : ℤ, ¬(p.1 ≤ z ∧ z ≤ p.2 ∧ q.1 ≤ z ∧ z ≤ q.2)) ∧
    (∀ p ∈ buildRanges df, p.2 ≤ 100) ∧
    ∀ h2 : buildRanges df ≠ [], ((buildRanges df).getLast h2).2 = 100 := by
  have hrnd : df.Pairwise (fun r s => rnd r.cumPct ≤ rnd s.cumPct) :=
    hmono.imp (fun h => rnd_mono (le_of_lt h))
  have hlb : ∀ row ∈ df, (0 : ℤ) - 1 ≤ rnd row.cumPct := fun row hr => by
    have := rnd_nonneg (hpos row hr)
    omega
  have hle : df.Pairwise (fun r s => r.cumPct ≤ s.cumPct) := hmono.imp le_of_lt
  have hple : ∀ row ∈ df, row.cumPct ≤ 100 := fun row hr => by
    have := cumPct_le_getLast df hne hle row hr
    rw [hlast] at this
    exact this
  refine ⟨?_, ?_, ?_, ?_⟩
  · intro z
    have h := mem_buildRangesAux_iff df hne 0 z hrnd hlb
    rw [hlast, rnd100] at h
    simpa using h
  · exact buildRangesAux_pairwise_disjoint df 0 hrnd hlb
  · intro p hp
    obtain ⟨row, hr, he⟩ := snd_mem_buildRangesAux df 0 p hp
    rw [he]
    have h := rnd_mono (hple row hr)
    rw [rnd100] at h
    exact h
  · intro h2
    show ((buildRangesAux df 0).getLast h2).2 = 100
    rw [getLast_buildRangesAux_snd df hne 0 h2, hlast, rnd100]

/-- C1 counterexample: a single row whose cumulative percentage is
exactly 100 (strictly increasing to 100 over one row) builds the range
`(0, 100)`: its `range_high` exceeds 99 and the union is `{0, …, 100}`,
not `{0, …, 99}`. -/
theorem ranges_partition_counterexample :
    buildRanges [⟨"1-3", (100 : ℚ)⟩] = [(0, 100)] ∧
    ¬(∀ p ∈ buildRanges [⟨"1-3", (100 : ℚ)⟩], p.2 ≤ 99) := by
  have h : buildRanges [⟨"1-3", (100 : ℚ)⟩] = [(0, 100)] := by
    simp [buildRanges, buildRangesAux, rnd100]
  refine ⟨h, ?_⟩
  rw [h]
  intro hall
  have := hall (0, 100) (List.mem_singleton.mpr rfl)
  norm_num at this

/-- Two-class table whose cumulative percentages reach exactly 100. -/
def rows100 : List ClassRow := [⟨"5-15", 59⟩, ⟨"45-55", 100⟩]

/-- C1 witness: the two-row table with percentages 59 and 100 satisfies
the hypotheses, so its ranges partition `{0, …, 100}`. -/
theorem ranges_partition_witness :
    (∀ z : ℤ, (∃ p ∈ buildRanges rows100, p.1 ≤ z ∧ z ≤ p.2) ↔ 0 ≤ z ∧ z ≤ 100) ∧
    (buildRanges rows100).Pairwise
      (fun p q => ∀ z : ℤ, ¬(p.1 ≤ z ∧ z ≤ p.2 ∧ q.1 ≤ z ∧ z ≤ q.2)) ∧
    (∀ p ∈ buildRanges rows100, p.2 ≤ 100) ∧
    ∀ h2 : buildRanges rows100 ≠ [], ((buildRanges rows100).getLast h2).2 = 100 :=
  ranges_partition rows100 (by simp [rows100])
    (by
      intro row hr
      simp [rows100] at hr
      rcases hr with rfl | rfl <;> norm_num)
    (by
      simp [rows100, List.pairwise_cons]
      norm_num)
    rfl

lemma get_simulation_valueAux_neg :
    ∀ (df : List ClassRow) (lower r : ℤ), (∀ row ∈ df, 0 ≤ row.cumPct) →
      0 ≤ lower → r < 0 → get_simulation_valueAux df lower r = 0 := by
  intro df
  induction df with
  | nil => intro lower r _ _ _; rfl
  | cons row rest ih =>
    intro lower r h h0 hr
    rw [get_simulation_valueAux, if_neg (by omega)]
    refine ih _ r (fun x hx => h x (List.mem_cons.mpr (Or.inr hx))) ?_ hr
    have := rnd_nonneg (h row (List.mem_cons_self _ _))
    omega

lemma get_simulation_valueAux_last :
    ∀ (df : List ClassRow) (hne : df ≠ []) (lower : ℤ),
      lower ≤ 100 →
      (∀ row ∈ df.dropLast, rnd row.cumPct ≤ 99) →
      rnd ((df.getLast hne).cumPct) = 100 →
      get_simulation_valueAux df lower 100 = repOfRow (df.getLast hne) := by
  intro df
  induction df with
  | nil => intro hne; exact absurd rfl hne
  | cons row rest ih =>
    intro hne lower hl hdrop hlast
    cases rest with
    | nil =>
      have h100 : rnd row.cumPct = 100 := hlast
      rw [get_simulation_valueAux, if_pos ⟨hl, by omega⟩]
      rfl
    | cons row2 t =>
      have hrowd : row ∈ (row :: row2 :: t).dropLast := by
        rw [List.dropLast_cons₂]
        exact List.mem_cons_self _ _
      have h99 := hdrop row hrowd
      rw [get_simulation_valueAux, if_neg (by omega)]
      rw [List.getLast_cons (by simp)] at hlast
      have hres := ih (by simp) (rnd row.cumPct + 1) (by omega)
        (fun x hx => hdrop x (by rw [List.dropLast_cons₂]; exact List.mem_cons.mpr (Or.inr hx)))
        hlast
      rw [hres]
      conv_rhs => rw [List.getLast_cons (show row2 :: t ≠ [] by simp)]

/-- C10 (amended): the sampler is total over all integer draws
(`get_simulation_value` is a total function of table and draw in this
embedding).  For tables whose cumulative percentages are nonnegative
(every percentage is), each negative draw returns `0`; and when every
non-final row's percentage rounds to at most 99 while the final row's
rounds to 100, draw `100` returns the final class's representative
value.  Without the bound on the earlier rows the original claim's final
clause fails: an earlier percentage may itself round to 100 and capture
draw 100 first (see the counterexample). -/
theorem sampler_total :
    (∀ (df : List ClassRow) (r : ℤ), (∀ row ∈ df, 0 ≤ row.cumPct) → r < 0 →
      get_simulation_value df r = 0) ∧
    (∀ (df : List ClassRow) (hne : df ≠ []),
      (∀ row ∈ df.dropLast, rnd row.cumPct ≤ 99) →
      rnd ((df.getLast hne).cumPct) = 100 →
      get_simulation_value df 100 = repOfRow (df.getLast hne)) :=
  ⟨fun df r hpos hr => get_simulation_valueAux_neg df 0 r hpos (le_refl 0) hr,
    fun df hne hdrop hlast =>
      get_simulation_valueAux_last df hne 0 (by norm_num) hdrop hlast⟩

/-- Table with a gap: the first class's percentage 99.7 already rounds
to 100, so its range is 0–100 and the second class (range 101–100,
empty) is unreachable. -/
def gapRows : List ClassRow := [⟨"0-2", 997/10⟩, ⟨"4-6", (100 : ℚ)⟩]

lemma parse_0_2 : parse_interval (clean_interval_string "0-2") = some (0, 2) := by decide

lemma parse_4_6 : parse_interval (clean_interval_string "4-6") = some (4, 6) := by decide

lemma repOfRow_0_2 : repOfRow ⟨"0-2", 997/10⟩ = 1 := by
  simp [repOfRow, parse_0_2]

lemma repOfRow_4_6 : repOfRow ⟨"4-6", (100 : ℚ)⟩ = 5 := by
  simp [repOfRow, parse_4_6]
  norm_num

/-- C10 counterexample: in `gapRows` the last cumulative percentage
rounds to 100, yet draw 100 is captured by the first class (whose 99.7
also rounds to 100) and returns its representative 1, not the last
class's representative 5. -/
theorem sampler_total_counterexample :
    rnd (997/10 : ℚ) = 100 ∧ rnd (100 : ℚ) = 100 ∧
    get_simulation_value gapRows 100 = 1 ∧
    repOfRow (gapRows.getLast (by simp [gapRows])) = 5 ∧
    get_simulation_value gapRows 100 ≠ repOfRow (gapRows.getLast (by simp [gapRows])) := by
  have h1 : get_simulation_value gapRows 100 = 1 := by
    simp [get_simulation_value, get_simulation_valueAux, gapRows, rnd997, repOfRow_0_2]
  have h2 : repOfRow (gapRows.getLast (by simp [gapRows])) = 5 := repOfRow_4_6
  refine ⟨rnd997, rnd100, h1, h2, ?_⟩
  rw [h1, h2]
  norm_num

/-- C10 witness: a negative draw on the two-class table samples to zero,
and on `rows100` (whose last percentage is exactly 100 and whose earlier
percentage rounds to 59) draw 100 returns the last representative 50. -/
theorem sampler_total_witness :
    get_simulation_value twoClassRows (-1) = 0 ∧
    get_simulation_value rows100 100 = repOfRow (rows100.getLast (by simp [rows100])) :=
  ⟨sampler_total.1 twoClassRows (-1)
      (by
        intro row hr
        simp [twoClassRows] at hr
        rcases hr with rfl | rfl <;> norm_num)
      (by norm_num),
    sampler_total.2 rows100 (by simp [rows100])
      (by
        intro row hr
        simp [rows100, List.dropLast_cons₂] at hr
        subst hr
        rw [rnd59]
        norm_num)
      (by rw [show (rows100.getLast (by simp [rows100])).cumPct = 100 from rfl, rnd100])⟩

end MonteCarlo
